import Mathlib

/-!
Shallow embedding of the session-coordination core of the
google-meet-clone repository (server/main.go), together with proofs
settling the frozen claims about its specification.

Conventions of the embedding:
* Go strings are Lean `String`; Go `int` is Lean `Int`; `time.Time`
  values are opaque `Nat` timestamps (only equality/copying matters).
* A Go map used as a set or dictionary is embedded as a list (of
  elements, or of key-value pairs); well-formedness hypotheses
  (`Nodup`) stand in for the impossibility of duplicate map keys.
* A `*Client` pointer is embedded as a `Client` value whose `cid`
  field plays the role of the pointer identity.
* The buffered `send` channel of a client is a `SendQueue` record:
  a non-blocking send succeeds exactly when the channel is open and
  its buffer is below capacity, which is the semantics of
  `select \x7b case ch <- v: default: \x7d` on a buffered channel with an
  idle reader.
-/

namespace VideoMeet

/-- Embeds the `Participant` struct of server/main.go (lines 83-95). -/
structure Participant where
  id : String
  meetingId : String
  userId : String
  userName : String
  peerId : String
  isHost : Bool
  isAudioEnabled : Bool
  isVideoEnabled : Bool
  isScreenSharing : Bool
  joinedAt : Nat
  lastActive : Nat
deriving DecidableEq, Repr

/-- Embeds the `Meeting` struct of server/main.go (lines 70-81). -/
structure Meeting where
  id : String
  title : String
  description : String
  createdBy : String
  scheduledFor : String
  createdAt : Nat
  updatedAt : Nat
  isPrivate : Bool
  isActive : Bool
  maxParticipants : Int
deriving DecidableEq, Repr

/-- Embeds the body of the flag-update request decoded by
`updateParticipantHandler` (server/main.go lines 822-826). -/
structure ParticipantUpdateRequest where
  isAudioEnabled : Bool
  isVideoEnabled : Bool
  isScreenSharing : Bool
deriving DecidableEq, Repr

/-- Embeds the MongoDB `$set` document built by `updateParticipantHandler`
(server/main.go lines 832-839) applied to one stored participant:
it overwrites `isAudioEnabled`, `isVideoEnabled`, `isScreenSharing` and
`lastActive` (with the current time) and touches nothing else. -/
def applyParticipantUpdate (p : Participant) (r : ParticipantUpdateRequest)
    (now : Nat) : Participant :=
  { p with
    isAudioEnabled := r.isAudioEnabled
    isVideoEnabled := r.isVideoEnabled
    isScreenSharing := r.isScreenSharing
    lastActive := now }

/-- Does a stored participant match the filter
`bson.M\x7b"meetingId": meetingID, "userId": userID\x7d` used by
`updateParticipantHandler` (server/main.go lines 841-845)? -/
def participantMatches (mid uid : String) (p : Participant) : Bool :=
  p.meetingId == mid && p.userId == uid

/-- Embeds `db.Participants.UpdateOne` with the handler-built filter and
update document: the first stored record matching the filter is rewritten
by the `$set` document, all other records are left alone (UpdateOne
modifies at most one document). -/
def updateParticipantStore (store : List Participant) (mid uid : String)
    (r : ParticipantUpdateRequest) (now : Nat) : List Participant :=
  match store with
  | [] => []
  | p :: rest =>
    if participantMatches mid uid p then
      applyParticipantUpdate p r now :: rest
    else
      p :: updateParticipantStore rest mid uid r now

/-- Embeds Go `strings.TrimSpace`: leading and trailing whitespace of
the string is removed. -/
def trimString (s : String) : String :=
  ⟨((s.data.dropWhile Char.isWhitespace).reverse.dropWhile Char.isWhitespace).reverse⟩

/-- Embeds the clamping of the requested participant limit in
`createMeetingHandler` (server/main.go lines 653-658): a request value
of zero or below (in particular the Go zero value used when the JSON
field is omitted) becomes 50, a value above 100 becomes 100, anything
else is kept. -/
def clampMaxParticipants (req : Int) : Int :=
  if req ≤ 0 then 50
  else if req > 100 then 100
  else req

/-- Embeds the `Meeting` value built and stored by `createMeetingHandler`
(server/main.go lines 648-675): the handler rejects a blank title and
otherwise stores the meeting with the clamped participant limit and
`isActive := true`. -/
def createMeetingStored (title description scheduledFor : String)
    (isPrivate : Bool) (reqMax : Int) (creator meetingID : String)
    (now : Nat) : Option Meeting :=
  if trimString title = "" then none
  else some
    { id := meetingID
      title := trimString title
      description := trimString description
      createdBy := creator
      scheduledFor := scheduledFor
      createdAt := now
      updatedAt := now
      isPrivate := isPrivate
      isActive := true
      maxParticipants := clampMaxParticipants reqMax }

/-- Embeds the body decoded by `notifyJoinHandler`
(server/main.go lines 764-767). -/
structure JoinRequest where
  userName : String
  peerId : String
deriving DecidableEq, Repr

/-- Embeds `notifyJoinHandler` (server/main.go lines 754-791).
The handler authenticates the caller, decodes the body, builds a
`Participant` with the Go zero values for the media flags, inserts it
into the participant store, and returns it.  It performs no lookup of
the meeting document: neither the privacy flag nor the participant
limit is consulted, and the participant count is never read.
`none` models the 401 rejection of an unauthenticated caller;
`some (p, store2)` models the success response together with the store
after the insert. -/
def notifyJoinHandler (meetingID authUserID : String) (req : JoinRequest)
    (store : List Participant) (newID : String) (now : Nat) :
    Option (Participant × List Participant) :=
  if authUserID = "" then none
  else
    let p : Participant :=
      { id := newID
        meetingId := meetingID
        userId := authUserID
        userName := req.userName
        peerId := req.peerId
        isHost := false
        isAudioEnabled := false
        isVideoEnabled := false
        isScreenSharing := false
        joinedAt := now
        lastActive := now }
    some (p, store ++ [p])

/-- Embeds the `WebSocketMessage` envelope of server/main.go
(lines 106-112).  For the presence events built by the hub the `Data`
field is the two-entry map holding the user id and the peer id
(lines 174 and 194); the embedding carries exactly those two entries.
For arbitrary broadcast payloads the two data fields are simply part
of the opaque message value. -/
structure WSMessage where
  type : String
  dataUserId : String
  dataPeerId : String
  meetingID : String
  timestamp : Nat
deriving DecidableEq, Repr

/-- Embeds the `Client` struct of server/main.go (lines 139-146).
`cid` plays the role of the Go pointer identity, and `capacity` is the
buffer size of the `send` channel, fixed when the client is created.
The mutable contents of the channel live in the hub state
(`SendQueue`), keyed by `cid`. -/
structure Client where
  cid : Nat
  userID : String
  meetingID : String
  peerID : String
  capacity : Nat
deriving DecidableEq, Repr

/-- State of one `send` channel: its buffer contents and whether
`close` has been called on it. -/
structure SendQueue where
  capacity : Nat
  buffered : List WSMessage
  closed : Bool
deriving DecidableEq, Repr

/-- Embeds the `Hub` struct of server/main.go (lines 131-137) together
with the channel state of every client.  `clients` embeds the key set
of the Go map `clients map[*Client]bool`; `meetings` embeds
`meetings map[string]map[*Client]bool` as an association list whose
values are member lists.  `log` and `evictions` are ghost
instrumentation: `log` records every message serialized by
`broadcastToMeeting`, and `evictions` counts the queue-full/closed
evictions performed inside broadcasts; neither influences the
behaviour of any operation. -/
structure Hub where
  clients : List Client
  meetings : List (String × List Client)
  queues : List (Nat × SendQueue)
  log : List WSMessage
  evictions : Nat
deriving DecidableEq, Repr

/-- Lookup in an association list (embedding of a Go map read). -/
def alookup {κ α : Type} [DecidableEq κ] (k : κ) :
    List (κ × α) → Option α
  | [] => none
  | (k2, v) :: t => if k2 = k then some v else alookup k t

/-- Write through an association list (embedding of a Go map write):
the first binding of the key is replaced, or the binding is appended
if the key is absent. -/
def aset {κ α : Type} [DecidableEq κ] (k : κ) (v : α) :
    List (κ × α) → List (κ × α)
  | [] => [(k, v)]
  | (k2, v2) :: t => if k2 = k then (k, v) :: t else (k2, v2) :: aset k v t

/-- Remove a key from an association list (embedding of Go `delete`). -/
def adel {κ α : Type} [DecidableEq κ] (k : κ) (l : List (κ × α)) :
    List (κ × α) :=
  l.filter (fun p => !(p.1 == k))

/-- Remove a client from a client list (embedding of deleting a
`*Client` key from a Go map used as a set). -/
def delClient (c : Client) (l : List Client) : List Client :=
  l.filter (fun d => !(d == c))

/-- The room association stored for a meeting id, if any
(`h.meetings[mid]`, distinguishing a nil map from a present one). -/
def getRoom (h : Hub) (mid : String) : Option (List Client) :=
  alookup mid h.meetings

/-- Member list of a room; a missing entry reads as the empty list,
the way a nil Go map reads as empty. -/
def roomMembers (h : Hub) (mid : String) : List Client :=
  (getRoom h mid).getD []

/-- Does the meetings map have an entry for this meeting id? -/
def roomExists (h : Hub) (mid : String) : Bool :=
  (getRoom h mid).isSome

/-- Channel state of the client with this pointer identity. -/
def getQueue (h : Hub) (n : Nat) : Option SendQueue :=
  alookup n h.queues

/-- Buffered contents of a send channel (empty if the channel is not
tracked). -/
def sendBuf (h : Hub) (n : Nat) : List WSMessage :=
  match getQueue h n with
  | some q => q.buffered
  | none => []

/-- Has `close` been called on this send channel? -/
def queueClosed (h : Hub) (n : Nat) : Bool :=
  match getQueue h n with
  | some q => q.closed
  | none => false

/-- Can a non-blocking send on this channel succeed right now?  This is
the `select \x7b case ch <- v: default: \x7d` criterion for a buffered
channel whose reader is not currently ready: the channel exists, is
open, and has buffer space. -/
def queueOk (h : Hub) (n : Nat) : Bool :=
  match getQueue h n with
  | some q => !q.closed && decide (q.buffered.length < q.capacity)
  | none => false

/-- Embeds the eviction arm of the `select` in `broadcastToMeeting`
(server/main.go lines 228-232): `close(client.send)`,
`delete(h.clients, client)`, `delete(h.meetings[meetingID], client)`.
The ghost eviction counter is incremented. -/
def evictClient (h : Hub) (mid : String) (c : Client) : Hub :=
  { h with
    queues :=
      match alookup c.cid h.queues with
      | some q => aset c.cid { q with closed := true } h.queues
      | none => h.queues
    clients := delClient c h.clients
    meetings :=
      match alookup mid h.meetings with
      | some ms => aset mid (delClient c ms) h.meetings
      | none => h.meetings
    evictions := h.evictions + 1 }

/-- Embeds one iteration of the delivery loop of `broadcastToMeeting`
(server/main.go lines 226-233) for a non-excluded member: a
non-blocking send that either appends the message to the member queue
or evicts the member. -/
def sendStep (mid : String) (msg : WSMessage) (h : Hub) (c : Client) :
    Hub :=
  match alookup c.cid h.queues with
  | some q =>
    if !q.closed && decide (q.buffered.length < q.capacity) then
      { h with queues := aset c.cid { q with buffered := q.buffered ++ [msg] } h.queues }
    else evictClient h mid c
  | none => evictClient h mid c

/-- Body of the delivery loop of `broadcastToMeeting`: skip the
excluded client (`if excludeClient != nil && client == excludeClient`),
otherwise perform the non-blocking send. -/
def broadcastStep (mid : String) (msg : WSMessage) (exclude : Option Client)
    (h : Hub) (c : Client) : Hub :=
  if exclude = some c then h else sendStep mid msg h c

/-- Embeds `Hub.broadcastToMeeting` (server/main.go lines 214-235):
the message is serialized once (recorded in the ghost log; marshaling
of this message shape cannot fail), then, when the room exists, the
delivery loop runs over the members the room held when the loop
started.  Evictions remove members from the live room but every
originally present member is still visited exactly once, which is the
Go semantics of ranging over a map while deleting visited keys. -/
def broadcastToMeeting (h : Hub) (mid : String) (msg : WSMessage)
    (exclude : Option Client) : Hub :=
  match alookup mid h.meetings with
  | none => { h with log := h.log ++ [msg] }
  | some members =>
    members.foldl (broadcastStep mid msg exclude) { h with log := h.log ++ [msg] }

/-- The `user-joined` message built in the register arm of `Hub.run`
(server/main.go lines 172-177). -/
def userJoinedMsg (c : Client) (now : Nat) : WSMessage :=
  { type := "user-joined"
    dataUserId := c.userID
    dataPeerId := c.peerID
    meetingID := c.meetingID
    timestamp := now }

/-- The `user-left` message built in the unregister arm of `Hub.run`
(server/main.go lines 192-197). -/
def userLeftMsg (c : Client) (now : Nat) : WSMessage :=
  { type := "user-left"
    dataUserId := c.userID
    dataPeerId := c.peerID
    meetingID := c.meetingID
    timestamp := now }

/-- Makes the send channel of a client visible to the model the first
time the hub sees the client.  In Go the channel is created together
with the client, before the client is submitted to `hub.register`, and
nothing touches it in between; tracking it from registration onward is
therefore equivalent.  A channel already tracked (for instance closed
by an earlier eviction of the same pointer) is kept as it is. -/
def installQueue (h : Hub) (c : Client) : Hub :=
  match alookup c.cid h.queues with
  | some _ => h
  | none => { h with queues := aset c.cid { capacity := c.capacity, buffered := [], closed := false } h.queues }

/-- The room member list after the register arm has added the client:
`h.meetings[mid]` is created when nil and the client key is set in it
(a second set of the same pointer key would change nothing). -/
def joinRoomList (h : Hub) (c : Client) : List Client :=
  if c ∈ roomMembers h c.meetingID then roomMembers h c.meetingID
  else roomMembers h c.meetingID ++ [c]

/-- The state mutations of the register arm of `Hub.run`
(server/main.go lines 162-167) before the `user-joined` broadcast:
`h.clients[client] = true` and `h.meetings[client.meetingID][client] =
true`, with the room map created when nil. -/
def registerCore (h : Hub) (c : Client) : Hub :=
  let h1 := installQueue h c
  { h1 with
    clients := if c ∈ h1.clients then h1.clients else h1.clients ++ [c]
    meetings := aset c.meetingID (joinRoomList h1 c) h1.meetings }

/-- Embeds the register arm of `Hub.run` (server/main.go lines
162-177): the client is added to the global registry and to its room
(the room map being created when nil), then `user-joined` is broadcast
to the room excluding the new client. -/
def register (h : Hub) (c : Client) (now : Nat) : Hub :=
  broadcastToMeeting (registerCore h c) c.meetingID (userJoinedMsg c now)
    (some c)

/-- The state mutations of the unregister arm of `Hub.run`
(server/main.go lines 180-183) for a registered client:
`delete(h.clients, client)`, `delete(h.meetings[client.meetingID],
client)` (a no-op on a nil room map), `close(client.send)`. -/
def unregisterCore (h : Hub) (c : Client) : Hub :=
  { h with
    clients := delClient c h.clients
    meetings :=
      match alookup c.meetingID h.meetings with
      | some ms => aset c.meetingID (delClient c ms) h.meetings
      | none => h.meetings
    queues :=
      match alookup c.cid h.queues with
      | some q => aset c.cid { q with closed := true } h.queues
      | none => h.queues }

/-- Embeds the unregister arm of `Hub.run` (server/main.go lines
179-199): when the client is registered it is removed from the global
registry and from its room and its channel is closed; then the room
entry is deleted if it became empty, and otherwise `user-left` is
broadcast to the remaining members with no exclusion.  A client that
is not registered is left entirely alone. -/
def unregister (h : Hub) (c : Client) (now : Nat) : Hub :=
  if c ∈ h.clients then
    let h3 := unregisterCore h c
    if ((alookup c.meetingID h3.meetings).getD []).length = 0 then
      { h3 with meetings := adel c.meetingID h3.meetings }
    else
      broadcastToMeeting h3 c.meetingID (userLeftMsg c now) none
  else h

/-- The three requests the hub worker serializes: registration,
unregistration, and a room broadcast. -/
inductive HubOp where
  | register (c : Client) (now : Nat)
  | unregister (c : Client) (now : Nat)
  | broadcast (mid : String) (msg : WSMessage) (exclude : Option Client)
deriving Repr

/-- One step of the hub worker loop (`Hub.run`). -/
def applyOp (h : Hub) : HubOp → Hub
  | .register c now => register h c now
  | .unregister c now => unregister h c now
  | .broadcast mid msg ex => broadcastToMeeting h mid msg ex

/-- The freshly constructed hub (`newHub`, server/main.go lines
149-157): empty registry, empty meetings map. -/
def emptyHub : Hub :=
  { clients := [], meetings := [], queues := [], log := [], evictions := 0 }

/-- The hub state reached by running a sequence of operations from the
fresh hub. -/
def runOps (ops : List HubOp) : Hub :=
  ops.foldl applyOp emptyHub

/-- Embeds the per-frame behaviour of `websocketHandler`
(server/main.go lines 701-720).  The handler upgrades the connection
and then runs the loop marked `Example: simple echo loop (replace with
your logic)`: each frame read from a connection is written back,
unchanged, to that same connection.  The result lists the
(connection, payload) deliveries caused by one received frame; `conn`
is the pointer identity of the receiving connection and the payload is
the raw frame bytes. -/
def websocketHandlerFrame (conn : Nat) (frame : String) :
    List (Nat × String) :=
  [(conn, frame)]

/-! ### Association-list and client-list lemmas -/

theorem alookup_aset_self {κ α : Type} [DecidableEq κ] (k : κ) (v : α) :
    ∀ l : List (κ × α), alookup k (aset k v l) = some v
  | [] => by simp [aset, alookup]
  | (k2, v2) :: t => by
    by_cases hk : k2 = k
    · simp [aset, hk, alookup]
    · simp [aset, hk, alookup, alookup_aset_self k v t]

theorem alookup_aset_ne {κ α : Type} [DecidableEq κ] {k k2 : κ} (v : α)
    (hne : k2 ≠ k) : ∀ l : List (κ × α),
    alookup k2 (aset k v l) = alookup k2 l
  | [] => by
    have hkk : ¬ (k = k2) := fun h => hne h.symm
    simp [aset, alookup, hkk]
  | (k3, v3) :: t => by
    have hkk : ¬ (k = k2) := fun h => hne h.symm
    by_cases hk : k3 = k
    · subst hk
      simp [aset, alookup, hkk]
    · simp [aset, hk, alookup, alookup_aset_ne v hne t]

theorem alookup_adel_self {κ α : Type} [DecidableEq κ] (k : κ) :
    ∀ l : List (κ × α), alookup k (adel k l) = none
  | [] => by simp [adel, alookup]
  | (k2, v2) :: t => by
    by_cases hk : k2 = k
    · simpa [adel, hk] using alookup_adel_self k t
    · simpa [adel, hk, alookup] using alookup_adel_self k t

theorem alookup_adel_ne {κ α : Type} [DecidableEq κ] {k k2 : κ}
    (hne : k2 ≠ k) : ∀ l : List (κ × α),
    alookup k2 (adel k l) = alookup k2 l
  | [] => by simp [adel, alookup]
  | (k3, v3) :: t => by
    have ih := alookup_adel_ne (k := k) hne t
    have hkk : ¬ (k = k2) := fun h => hne h.symm
    by_cases hk : k3 = k
    · simp only [adel, List.filter_cons] at ih ⊢
      simp [hk, alookup, hkk, ih]
    · by_cases h32 : k3 = k2
      · simp only [adel, List.filter_cons] at ih ⊢
        rw [if_pos (by simp [hk])]
        simp [alookup, h32]
      · simp only [adel, List.filter_cons] at ih ⊢
        simp [hk, alookup, h32, ih]

theorem installQueue_meetings (h : Hub) (c : Client) :
    (installQueue h c).meetings = h.meetings := by
  unfold installQueue
  cases alookup c.cid h.queues <;> rfl

theorem installQueue_clients (h : Hub) (c : Client) :
    (installQueue h c).clients = h.clients := by
  unfold installQueue
  cases alookup c.cid h.queues <;> rfl

theorem installQueue_log (h : Hub) (c : Client) :
    (installQueue h c).log = h.log := by
  unfold installQueue
  cases alookup c.cid h.queues <;> rfl

theorem installQueue_evictions (h : Hub) (c : Client) :
    (installQueue h c).evictions = h.evictions := by
  unfold installQueue
  cases alookup c.cid h.queues <;> rfl

theorem joinRoomList_installQueue (h : Hub) (c : Client) :
    joinRoomList (installQueue h c) c = joinRoomList h c := by
  unfold joinRoomList roomMembers getRoom
  rw [installQueue_meetings]

theorem registerCore_meetings (h : Hub) (c : Client) :
    (registerCore h c).meetings
      = aset c.meetingID (joinRoomList h c) h.meetings := by
  unfold registerCore
  simp only [installQueue_meetings, joinRoomList_installQueue]

theorem registerCore_clients (h : Hub) (c : Client) :
    (registerCore h c).clients
      = if c ∈ h.clients then h.clients else h.clients ++ [c] := by
  unfold registerCore
  simp only [installQueue_clients]

theorem registerCore_log (h : Hub) (c : Client) :
    (registerCore h c).log = h.log := by
  unfold registerCore
  simp only [installQueue_log]

theorem registerCore_evictions (h : Hub) (c : Client) :
    (registerCore h c).evictions = h.evictions := by
  unfold registerCore
  simp only [installQueue_evictions]

theorem unregisterCore_meetings (h : Hub) (c : Client) :
    (unregisterCore h c).meetings
      = match alookup c.meetingID h.meetings with
        | some ms => aset c.meetingID (delClient c ms) h.meetings
        | none => h.meetings := rfl

theorem unregisterCore_clients (h : Hub) (c : Client) :
    (unregisterCore h c).clients = delClient c h.clients := rfl

theorem unregisterCore_log (h : Hub) (c : Client) :
    (unregisterCore h c).log = h.log := rfl

theorem unregisterCore_evictions (h : Hub) (c : Client) :
    (unregisterCore h c).evictions = h.evictions := rfl

theorem mem_delClient {d c : Client} {l : List Client} :
    d ∈ delClient c l ↔ d ∈ l ∧ d ≠ c := by
  simp [delClient, List.mem_filter]

theorem not_mem_delClient (c : Client) (l : List Client) :
    c ∉ delClient c l := by
  simp [mem_delClient]

theorem delClient_subset {d c : Client} {l : List Client}
    (h : d ∈ delClient c l) : d ∈ l :=
  (mem_delClient.1 h).1

/-! ### Claim C2: the room-exists-iff-nonempty invariant -/

/-- Client A of the C2 counterexample: send channel of capacity 1. -/
def c2A : Client :=
  { cid := 0, userID := "uA", meetingID := "m", peerID := "pA", capacity := 1 }

/-- Client B of the C2 counterexample: unbuffered send channel whose
writer is not ready (capacity 0). -/
def c2B : Client :=
  { cid := 1, userID := "uB", meetingID := "m", peerID := "pB", capacity := 0 }

/-- The three-operation trace of the C2 counterexample. -/
def c2Trace : List HubOp :=
  [HubOp.register c2A 0, HubOp.register c2B 1, HubOp.unregister c2A 2]

/-- Claim C2 counterexample: after registering A and B in meeting `m`
and unregistering A, the `user-left` broadcast to B fails (the queue of
B is saturated), so B is evicted inside `broadcastToMeeting`, which
removes B from the room but - unlike the unregister arm - never
deletes the now-empty room entry.  The meetings map then holds an
entry for `m` with an empty member set, refuting the exists-iff-nonempty
invariant. -/
theorem C2_counterexample_empty_room_entry :
    roomExists (runOps c2Trace) "m" = true ∧
    roomMembers (runOps c2Trace) "m" = [] := by
  constructor <;> rfl

/-- Rooms of this hub state that exist are non-empty. -/
def RoomsNonempty (h : Hub) : Prop :=
  ∀ mid ms, getRoom h mid = some ms → ms ≠ []

theorem broadcastStep_evictions_le (mid : String) (msg : WSMessage)
    (ex : Option Client) (h : Hub) (c : Client) :
    h.evictions ≤ (broadcastStep mid msg ex h c).evictions := by
  unfold broadcastStep sendStep evictClient
  by_cases hex : ex = some c
  · simp [hex]
  · cases halq : alookup c.cid h.queues with
    | none => simp [hex, halq]
    | some q =>
      simp only [hex, if_false, halq]
      split <;> simp

theorem foldl_broadcastStep_evictions_le (mid : String) (msg : WSMessage)
    (ex : Option Client) :
    ∀ (l : List Client) (h : Hub),
    h.evictions ≤ (l.foldl (broadcastStep mid msg ex) h).evictions
  | [], h => le_refl _
  | c :: t, h =>
    le_trans (broadcastStep_evictions_le mid msg ex h c)
      (foldl_broadcastStep_evictions_le mid msg ex t _)

theorem broadcastToMeeting_evictions_le (h : Hub) (mid : String)
    (msg : WSMessage) (ex : Option Client) :
    h.evictions ≤ (broadcastToMeeting h mid msg ex).evictions := by
  unfold broadcastToMeeting
  cases halq : alookup mid h.meetings with
  | none => simp [halq]
  | some members =>
    simpa [halq] using
      foldl_broadcastStep_evictions_le mid msg ex members
        { h with log := h.log ++ [msg] }

/-- A delivery-loop step that did not evict changed only the queues:
meetings, clients and log are untouched. -/
theorem broadcastStep_no_evict (mid : String) (msg : WSMessage)
    (ex : Option Client) (h : Hub) (c : Client)
    (heq : (broadcastStep mid msg ex h c).evictions = h.evictions) :
    (broadcastStep mid msg ex h c).meetings = h.meetings ∧
    (broadcastStep mid msg ex h c).clients = h.clients ∧
    (broadcastStep mid msg ex h c).log = h.log := by
  unfold broadcastStep sendStep evictClient at heq ⊢
  by_cases hex : ex = some c
  · simp [hex]
  · cases halq : alookup c.cid h.queues with
    | none => simp [hex, halq] at heq
    | some q =>
      simp only [hex, if_false, halq] at heq ⊢
      split at heq
      · simp_all
      · simp at heq

theorem foldl_broadcastStep_no_evict (mid : String) (msg : WSMessage)
    (ex : Option Client) :
    ∀ (l : List Client) (h : Hub),
    (l.foldl (broadcastStep mid msg ex) h).evictions = h.evictions →
    (l.foldl (broadcastStep mid msg ex) h).meetings = h.meetings ∧
    (l.foldl (broadcastStep mid msg ex) h).clients = h.clients ∧
    (l.foldl (broadcastStep mid msg ex) h).log = h.log
  | [], h => fun _ => ⟨rfl, rfl, rfl⟩
  | c :: t, h => by
    intro heq
    simp only [List.foldl_cons] at heq ⊢
    have h1 : (broadcastStep mid msg ex h c).evictions = h.evictions := by
      have ha := broadcastStep_evictions_le mid msg ex h c
      have hb := foldl_broadcastStep_evictions_le mid msg ex t
        (broadcastStep mid msg ex h c)
      omega
    have hs := broadcastStep_no_evict mid msg ex h c h1
    have ht := foldl_broadcastStep_no_evict mid msg ex t
      (broadcastStep mid msg ex h c) (by omega)
    exact ⟨hs.1 ▸ ht.1, hs.2.1 ▸ ht.2.1, hs.2.2 ▸ ht.2.2⟩

/-- A broadcast that evicted nobody left the meetings map and the
client registry unchanged and appended exactly the serialized message
to the log. -/
theorem broadcastToMeeting_no_evict (h : Hub) (mid : String)
    (msg : WSMessage) (ex : Option Client)
    (heq : (broadcastToMeeting h mid msg ex).evictions = h.evictions) :
    (broadcastToMeeting h mid msg ex).meetings = h.meetings ∧
    (broadcastToMeeting h mid msg ex).clients = h.clients ∧
    (broadcastToMeeting h mid msg ex).log = h.log ++ [msg] := by
  unfold broadcastToMeeting at heq ⊢
  cases halq : alookup mid h.meetings with
  | none => simp [halq]
  | some members =>
    simp only [halq] at heq ⊢
    exact foldl_broadcastStep_no_evict mid msg ex members _ heq

theorem applyOp_evictions_le (h : Hub) (op : HubOp) :
    h.evictions ≤ (applyOp h op).evictions := by
  cases op with
  | register c now =>
    show h.evictions ≤ (register h c now).evictions
    unfold register
    calc h.evictions = (registerCore h c).evictions :=
          (registerCore_evictions h c).symm
      _ ≤ _ := broadcastToMeeting_evictions_le _ _ _ _
  | unregister c now =>
    show h.evictions ≤ (unregister h c now).evictions
    unfold unregister
    by_cases hc : c ∈ h.clients
    · simp only [hc, if_true]
      by_cases hlen :
          ((alookup c.meetingID (unregisterCore h c).meetings).getD []).length = 0
      · rw [if_pos hlen]
        exact le_of_eq (unregisterCore_evictions h c).symm
      · rw [if_neg hlen]
        calc h.evictions = (unregisterCore h c).evictions :=
              (unregisterCore_evictions h c).symm
          _ ≤ _ := broadcastToMeeting_evictions_le _ _ _ _
    · simp [hc]
  | broadcast mid msg ex =>
    exact broadcastToMeeting_evictions_le h mid msg ex

/-- One eviction-free hub operation preserves the rooms-nonempty
invariant. -/
theorem applyOp_preserves_RoomsNonempty (h : Hub) (op : HubOp)
    (hinv : RoomsNonempty h)
    (heq : (applyOp h op).evictions = h.evictions) :
    RoomsNonempty (applyOp h op) := by
  cases op with
  | register c now =>
    have heq2 : (register h c now).evictions = h.evictions := heq
    unfold register at heq2
    have hbe : (broadcastToMeeting (registerCore h c) c.meetingID
        (userJoinedMsg c now) (some c)).evictions
        = (registerCore h c).evictions := by
      rw [registerCore_evictions]; exact heq2
    have hb := (broadcastToMeeting_no_evict (registerCore h c) c.meetingID
      (userJoinedMsg c now) (some c) hbe).1
    intro mid ms hms
    have hms2 : alookup mid (aset c.meetingID (joinRoomList h c) h.meetings)
        = some ms := by
      have : getRoom (register h c now) mid = some ms := hms
      unfold register getRoom at this
      rw [hb, registerCore_meetings] at this
      exact this
    by_cases hmid : mid = c.meetingID
    · subst hmid
      rw [alookup_aset_self] at hms2
      have hj : joinRoomList h c = ms := Option.some.inj hms2
      rw [← hj]
      unfold joinRoomList
      split
      · rename_i hin
        exact List.ne_nil_of_mem hin
      · simp
    · rw [alookup_aset_ne _ hmid _] at hms2
      exact hinv mid ms hms2
  | unregister c now =>
    have heq2 : (unregister h c now).evictions = h.evictions := heq
    show RoomsNonempty (unregister h c now)
    unfold unregister at heq2 ⊢
    by_cases hc : c ∈ h.clients
    · simp only [hc, if_true] at heq2 ⊢
      have hum := unregisterCore_meetings h c
      by_cases hlen :
          ((alookup c.meetingID (unregisterCore h c).meetings).getD []).length = 0
      · rw [if_pos hlen]
        intro mid ms hms
        have hms2 : alookup mid (adel c.meetingID (unregisterCore h c).meetings)
            = some ms := hms
        by_cases hmid : mid = c.meetingID
        · subst hmid
          rw [alookup_adel_self] at hms2
          exact absurd hms2 (by simp)
        · rw [alookup_adel_ne hmid] at hms2
          rw [hum] at hms2
          cases halq : alookup c.meetingID h.meetings with
          | none =>
            rw [halq] at hms2
            exact hinv mid ms hms2
          | some ms0 =>
            rw [halq] at hms2
            rw [alookup_aset_ne _ hmid _] at hms2
            exact hinv mid ms hms2
      · rw [if_neg hlen] at heq2 ⊢
        have hbe : (broadcastToMeeting (unregisterCore h c) c.meetingID
            (userLeftMsg c now) none).evictions
            = (unregisterCore h c).evictions := by
          rw [unregisterCore_evictions]; exact heq2
        have hb := (broadcastToMeeting_no_evict (unregisterCore h c)
          c.meetingID (userLeftMsg c now) none hbe).1
        intro mid ms hms
        have hms2 : alookup mid (unregisterCore h c).meetings = some ms := by
          have : getRoom (broadcastToMeeting (unregisterCore h c) c.meetingID
              (userLeftMsg c now) none) mid = some ms := hms
          unfold getRoom at this
          rw [hb] at this
          exact this
        by_cases hmid : mid = c.meetingID
        · subst hmid
          intro hnil
          apply hlen
          rw [hms2, hnil]
          rfl
        · rw [hum] at hms2
          cases halq : alookup c.meetingID h.meetings with
          | none =>
            rw [halq] at hms2
            exact hinv mid ms hms2
          | some ms0 =>
            rw [halq] at hms2
            rw [alookup_aset_ne _ hmid _] at hms2
            exact hinv mid ms hms2
    · simpa [hc] using hinv
  | broadcast mid msg ex =>
    intro mid2 ms hms
    have hb := (broadcastToMeeting_no_evict h mid msg ex heq).1
    have hms2 : alookup mid2 h.meetings = some ms := by
      have : getRoom (broadcastToMeeting h mid msg ex) mid2 = some ms := hms
      unfold getRoom at this
      rw [hb] at this
      exact this
    exact hinv mid2 ms hms2

theorem foldl_applyOp_evictions_le :
    ∀ (ops : List HubOp) (h : Hub),
    h.evictions ≤ (ops.foldl applyOp h).evictions
  | [], h => le_refl _
  | op :: t, h =>
    le_trans (applyOp_evictions_le h op) (foldl_applyOp_evictions_le t _)

theorem foldl_applyOp_preserves_RoomsNonempty :
    ∀ (ops : List HubOp) (h : Hub), RoomsNonempty h →
    (ops.foldl applyOp h).evictions = h.evictions →
    RoomsNonempty (ops.foldl applyOp h)
  | [], h => fun hinv _ => hinv
  | op :: t, h => by
    intro hinv heq
    simp only [List.foldl_cons] at heq ⊢
    have h1 : (applyOp h op).evictions = h.evictions := by
      have ha := applyOp_evictions_le h op
      have hb := foldl_applyOp_evictions_le t (applyOp h op)
      omega
    exact foldl_applyOp_preserves_RoomsNonempty t (applyOp h op)
      (applyOp_preserves_RoomsNonempty h op hinv h1) (by omega)

/-- Claim C2 (amended): for every run of register, unregister and
broadcast operations from the fresh hub in which no broadcast delivery
ever failed (no queue-full/closed eviction occurred), an entry for a
meeting id exists in the meetings map exactly when its member set is
non-empty.  The amendment is forced by
`C2_counterexample_empty_room_entry`: an eviction inside the
`user-left` broadcast can leave an empty room entry behind. -/
theorem C2_room_exists_iff_nonempty_when_no_evictions
    (ops : List HubOp) (hev : (runOps ops).evictions = 0) (mid : String) :
    roomExists (runOps ops) mid = true ↔ roomMembers (runOps ops) mid ≠ [] := by
  have hinv : RoomsNonempty (runOps ops) := by
    refine foldl_applyOp_preserves_RoomsNonempty ops emptyHub ?_ ?_
    · intro mid2 ms hms
      simp [getRoom, emptyHub, alookup] at hms
    · exact hev
  constructor
  · intro hex
    cases hms : getRoom (runOps ops) mid with
    | none => rw [roomExists, hms] at hex; simp at hex
    | some ms =>
      rw [roomMembers, hms]
      exact hinv mid ms hms
  · intro hne
    cases hms : getRoom (runOps ops) mid with
    | none =>
      rw [roomMembers, hms] at hne
      simp at hne
    | some ms => rw [roomExists, hms]; rfl

/-- Witness for the amended C2 at the one-operation eviction-free run
that registers A into meeting `m`. -/
theorem C2_amended_witness :
    (runOps [HubOp.register c2A 0]).evictions = 0 ∧
    (roomExists (runOps [HubOp.register c2A 0]) "m" = true ↔
      roomMembers (runOps [HubOp.register c2A 0]) "m" ≠ []) :=
  ⟨rfl, C2_room_exists_iff_nonempty_when_no_evictions
    [HubOp.register c2A 0] rfl "m"⟩

/-! ### Claim C5: unregister is idempotent -/

theorem broadcastStep_log (mid : String) (msg : WSMessage)
    (ex : Option Client) (h : Hub) (c : Client) :
    (broadcastStep mid msg ex h c).log = h.log := by
  unfold broadcastStep sendStep evictClient
  by_cases hex : ex = some c
  · simp [hex]
  · cases halq : alookup c.cid h.queues with
    | none => simp [hex, halq]
    | some q =>
      simp only [hex, if_false, halq]
      split <;> rfl

theorem foldl_broadcastStep_log (mid : String) (msg : WSMessage)
    (ex : Option Client) :
    ∀ (l : List Client) (h : Hub),
    (l.foldl (broadcastStep mid msg ex) h).log = h.log
  | [], _ => rfl
  | c :: t, h => by
    rw [List.foldl_cons, foldl_broadcastStep_log mid msg ex t,
      broadcastStep_log]

/-- Every broadcast appends exactly its serialized message to the
ghost log, evictions or not. -/
theorem broadcastToMeeting_log (h : Hub) (mid : String) (msg : WSMessage)
    (ex : Option Client) :
    (broadcastToMeeting h mid msg ex).log = h.log ++ [msg] := by
  unfold broadcastToMeeting
  cases halq : alookup mid h.meetings with
  | none => simp [halq]
  | some members => simp [halq, foldl_broadcastStep_log]

theorem broadcastStep_clients_subset {x : Client} (mid : String)
    (msg : WSMessage) (ex : Option Client) (h : Hub) (c : Client)
    (hx : x ∈ (broadcastStep mid msg ex h c).clients) : x ∈ h.clients := by
  unfold broadcastStep sendStep evictClient at hx
  by_cases hex : ex = some c
  · simpa [hex] using hx
  · cases halq : alookup c.cid h.queues with
    | none =>
      simp only [hex, if_false, halq] at hx
      exact delClient_subset hx
    | some q =>
      simp only [hex, if_false, halq] at hx
      split at hx
      · exact hx
      · exact delClient_subset hx

theorem foldl_broadcastStep_clients_subset {x : Client} (mid : String)
    (msg : WSMessage) (ex : Option Client) :
    ∀ (l : List Client) (h : Hub),
    x ∈ (l.foldl (broadcastStep mid msg ex) h).clients → x ∈ h.clients
  | [], _ => fun hx => hx
  | c :: t, h => fun hx =>
    broadcastStep_clients_subset mid msg ex h c
      (foldl_broadcastStep_clients_subset mid msg ex t _ hx)

theorem broadcastToMeeting_clients_subset {x : Client} (h : Hub)
    (mid : String) (msg : WSMessage) (ex : Option Client)
    (hx : x ∈ (broadcastToMeeting h mid msg ex).clients) : x ∈ h.clients := by
  unfold broadcastToMeeting at hx
  cases halq : alookup mid h.meetings with
  | none => simpa [halq] using hx
  | some members =>
    rw [halq] at hx
    have hx2 : x ∈ (List.foldl (broadcastStep mid msg ex)
        { h with log := h.log ++ [msg] } members).clients := hx
    exact foldl_broadcastStep_clients_subset mid msg ex members
      { h with log := h.log ++ [msg] } hx2

/-- After unregistering a client, the client is gone from the global
registry (whatever state the hub was in). -/
theorem unregister_self_not_mem (h : Hub) (c : Client) (now : Nat) :
    c ∉ (unregister h c now).clients := by
  unfold unregister
  by_cases hc : c ∈ h.clients
  · simp only [hc, if_true]
    by_cases hlen :
        ((alookup c.meetingID (unregisterCore h c).meetings).getD []).length = 0
    · rw [if_pos hlen]
      show c ∉ (unregisterCore h c).clients
      rw [unregisterCore_clients]
      exact not_mem_delClient c h.clients
    · rw [if_neg hlen]
      intro hx
      have := broadcastToMeeting_clients_subset _ _ _ _ hx
      rw [unregisterCore_clients] at this
      exact not_mem_delClient c h.clients this
  · simpa [hc] using hc

/-- Claim C5: unregistering the same connection twice leaves the state
of the first unregister untouched (the second call is a no-op, the
ghost log included), and the two calls together emit exactly one
`user-left` broadcast when the client was registered and its room kept
other members after the removal, and zero otherwise. -/
theorem C5_unregister_idempotent (h : Hub) (c : Client) (t1 t2 : Nat) :
    unregister (unregister h c t1) c t2 = unregister h c t1 ∧
    ((unregister h c t1).log.drop h.log.length).countP
        (fun m => m.type == "user-left")
      = (if c ∈ h.clients ∧ delClient c (roomMembers h c.meetingID) ≠ []
         then 1 else 0) := by
  constructor
  · rw [unregister, if_neg (unregister_self_not_mem h c t1)]
  · unfold unregister
    by_cases hc : c ∈ h.clients
    · simp only [hc, if_true]
      have hum := unregisterCore_meetings h c
      have hcond :
          (((alookup c.meetingID (unregisterCore h c).meetings).getD []).length = 0)
          ↔ delClient c (roomMembers h c.meetingID) = [] := by
        rw [hum]
        cases halq : alookup c.meetingID h.meetings with
        | none =>
          simp [halq, roomMembers, getRoom, delClient]
        | some ms0 =>
          rw [alookup_aset_self]
          simp [roomMembers, getRoom, halq, List.length_eq_zero]
      by_cases hlen :
          ((alookup c.meetingID (unregisterCore h c).meetings).getD []).length = 0
      · rw [if_pos hlen]
        have hnil : delClient c (roomMembers h c.meetingID) = [] := hcond.1 hlen
        rw [if_neg (fun hand => hand.2 hnil)]
        show ((unregisterCore h c).log.drop h.log.length).countP _ = 0
        rw [unregisterCore_log, List.drop_length]
        rfl
      · rw [if_neg hlen]
        have hne : delClient c (roomMembers h c.meetingID) ≠ [] :=
          fun hnil => hlen (hcond.2 hnil)
        rw [if_pos ⟨trivial, hne⟩, broadcastToMeeting_log, unregisterCore_log,
          List.drop_left]
        rfl
    · rw [if_neg hc, List.drop_length, if_neg (fun hand => hc hand.1)]
      rfl

/-! ### Delivery-loop characterization for claims C6, C7, C8 -/

theorem evictClient_clients (h : Hub) (mid : String) (c : Client) :
    (evictClient h mid c).clients = delClient c h.clients := rfl

theorem evictClient_roomMembers (h : Hub) (mid : String) (c : Client) :
    roomMembers (evictClient h mid c) mid = delClient c (roomMembers h mid) := by
  unfold evictClient roomMembers getRoom
  cases halq : alookup mid h.meetings with
  | none => simp [halq, delClient]
  | some ms => simp [halq, alookup_aset_self]

theorem evictClient_getQueue_self (h : Hub) (mid : String) (c : Client)
    (q : SendQueue) (hq : getQueue h c.cid = some q) :
    getQueue (evictClient h mid c) c.cid = some { q with closed := true } := by
  unfold evictClient getQueue
  unfold getQueue at hq
  simp only [hq]
  exact alookup_aset_self _ _ _

theorem evictClient_getQueue_ne (h : Hub) (mid : String) (c : Client)
    (n : Nat) (hn : n ≠ c.cid) :
    getQueue (evictClient h mid c) n = getQueue h n := by
  unfold evictClient getQueue
  cases halq : alookup c.cid h.queues with
  | none => simp [halq]
  | some q => simp [halq, alookup_aset_ne _ hn _]

/-- A delivery-loop step for a client with a different pointer identity
leaves the queue of `n` alone. -/
theorem broadcastStep_getQueue_ne (mid : String) (msg : WSMessage)
    (ex : Option Client) (h : Hub) (c : Client) (n : Nat) (hn : n ≠ c.cid) :
    getQueue (broadcastStep mid msg ex h c) n = getQueue h n := by
  unfold broadcastStep sendStep
  by_cases hex : ex = some c
  · simp [hex]
  · cases halq : alookup c.cid h.queues with
    | none =>
      simp only [hex, if_false, halq]
      exact evictClient_getQueue_ne h mid c n hn
    | some q =>
      simp only [hex, if_false, halq]
      split
      · show alookup n (aset c.cid _ h.queues) = _
        exact alookup_aset_ne _ hn _
      · exact evictClient_getQueue_ne h mid c n hn

/-- A delivery-loop step on a member whose queue accepts the message
appends it to that queue and changes no other component. -/
theorem broadcastStep_deliver (mid : String) (msg : WSMessage)
    (ex : Option Client) (h : Hub) (c : Client) (hex : ex ≠ some c)
    (hok : queueOk h c.cid = true) :
    getQueue (broadcastStep mid msg ex h c) c.cid
      = (getQueue h c.cid).map (fun q => { q with buffered := q.buffered ++ [msg] }) ∧
    (broadcastStep mid msg ex h c).meetings = h.meetings ∧
    (broadcastStep mid msg ex h c).clients = h.clients := by
  have hq : ∃ q, alookup c.cid h.queues = some q ∧
      (!q.closed && decide (q.buffered.length < q.capacity)) = true := by
    unfold queueOk getQueue at hok
    cases hg : alookup c.cid h.queues with
    | none => rw [hg] at hok; simp at hok
    | some q => rw [hg] at hok; exact ⟨q, rfl, hok⟩
  obtain ⟨q, hg, hcond⟩ := hq
  unfold broadcastStep sendStep
  rw [if_neg hex]
  simp only [hg]
  rw [if_pos hcond]
  refine ⟨?_, rfl, rfl⟩
  show alookup c.cid (aset c.cid { q with buffered := q.buffered ++ [msg] } h.queues)
      = _
  rw [alookup_aset_self]
  unfold getQueue
  rw [hg]
  rfl

/-- A delivery-loop step on a member whose queue is full, closed or
untracked is exactly the eviction of that member. -/
theorem broadcastStep_evict (mid : String) (msg : WSMessage)
    (ex : Option Client) (h : Hub) (c : Client) (hex : ex ≠ some c)
    (hbad : queueOk h c.cid = false) :
    broadcastStep mid msg ex h c = evictClient h mid c := by
  unfold broadcastStep sendStep
  rw [if_neg hex]
  cases hg : alookup c.cid h.queues with
  | none => simp only [hg]
  | some q =>
    have hcond : (!q.closed && decide (q.buffered.length < q.capacity)) = false := by
      unfold queueOk getQueue at hbad
      rw [hg] at hbad
      exact hbad
    simp only [hg]
    rw [if_neg (by simp [hcond])]

/-- The delivery loop leaves the queue of `n` alone when every member
owning that pointer identity is the excluded client. -/
theorem foldl_broadcastStep_getQueue_untouched (mid : String)
    (msg : WSMessage) (ex : Option Client) :
    ∀ (l : List Client) (h : Hub) (n : Nat),
    (∀ c ∈ l, c.cid = n → ex = some c) →
    getQueue (l.foldl (broadcastStep mid msg ex) h) n = getQueue h n
  | [], _, _ => fun _ => rfl
  | c :: t, h, n => by
    intro hl
    rw [List.foldl_cons]
    rw [foldl_broadcastStep_getQueue_untouched mid msg ex t _ n
      (fun d hd => hl d (List.mem_cons_of_mem c hd))]
    by_cases hcn : c.cid = n
    · have hex : ex = some c := hl c (List.mem_cons_self c t) hcn
      unfold broadcastStep
      rw [if_pos hex]
    · exact broadcastStep_getQueue_ne mid msg ex h c n (fun hh => hcn hh.symm)

/-- Delivery: a member of the loop list that is not excluded, has a
pointer identity unique in the list, and has queue capacity, receives
exactly one copy of the message appended to its queue. -/
theorem foldl_broadcastStep_deliver (mid : String) (msg : WSMessage)
    (ex : Option Client) :
    ∀ (l : List Client) (h : Hub) (c : Client),
    c ∈ l → ex ≠ some c → (l.map Client.cid).Nodup →
    queueOk h c.cid = true →
    getQueue (l.foldl (broadcastStep mid msg ex) h) c.cid
      = (getQueue h c.cid).map (fun q => { q with buffered := q.buffered ++ [msg] })
  | [], _, _ => fun hmem => absurd hmem (List.not_mem_nil _)
  | d :: t, h, c => by
    intro hmem hex hnd hok
    have hnd' : d.cid ∉ t.map Client.cid ∧ (t.map Client.cid).Nodup := by
      rw [List.map_cons, List.nodup_cons] at hnd
      exact hnd
    rw [List.foldl_cons]
    rcases List.mem_cons.1 hmem with hcd | hct
    · subst hcd
      have hstep := broadcastStep_deliver mid msg ex h c hex hok
      rw [foldl_broadcastStep_getQueue_untouched mid msg ex t _ c.cid ?_]
      · exact hstep.1
      · intro d2 hd2 hd2c
        exact absurd (hd2c ▸ List.mem_map_of_mem Client.cid hd2) hnd'.1
    · have hdc : d.cid ≠ c.cid := by
        intro hh
        have hcin : c.cid ∈ t.map Client.cid := List.mem_map_of_mem Client.cid hct
        have hdn : d.cid ∉ t.map Client.cid :=
          hnd'.1
        exact hdn (hh ▸ hcin)
      have hq1 : getQueue (broadcastStep mid msg ex h d) c.cid
          = getQueue h c.cid :=
        broadcastStep_getQueue_ne mid msg ex h d c.cid (fun hh => hdc hh.symm)
      rw [foldl_broadcastStep_deliver mid msg ex t _ c hct hex
        (hnd'.2)
        (by unfold queueOk; rw [hq1]; exact hok), hq1]

/-- The delivery loop with no failing member queue does not change the
meetings map or the client registry. -/
theorem foldl_broadcastStep_all_ok (mid : String) (msg : WSMessage)
    (ex : Option Client) :
    ∀ (l : List Client) (h : Hub),
    (l.map Client.cid).Nodup →
    (∀ c ∈ l, ex ≠ some c → queueOk h c.cid = true) →
    (l.foldl (broadcastStep mid msg ex) h).meetings = h.meetings ∧
    (l.foldl (broadcastStep mid msg ex) h).clients = h.clients
  | [], _ => fun _ _ => ⟨rfl, rfl⟩
  | d :: t, h => by
    intro hnd hok
    have hnd' : d.cid ∉ t.map Client.cid ∧ (t.map Client.cid).Nodup := by
      rw [List.map_cons, List.nodup_cons] at hnd
      exact hnd
    rw [List.foldl_cons]
    by_cases hex : ex = some d
    · have hd : broadcastStep mid msg ex h d = h := by
        unfold broadcastStep
        simp [hex]
      rw [hd]
      exact foldl_broadcastStep_all_ok mid msg ex t h
        (hnd'.2)
        (fun c hc hcex => hok c (List.mem_cons_of_mem d hc) hcex)
    · have hstep := broadcastStep_deliver mid msg ex h d hex
        (hok d (List.mem_cons_self d t) hex)
      have hrest := foldl_broadcastStep_all_ok mid msg ex t
        (broadcastStep mid msg ex h d)
        (hnd'.2) ?_
      · exact ⟨hstep.2.1 ▸ hrest.1, hstep.2.2 ▸ hrest.2⟩
      · intro c hc hcex
        have hdc : d.cid ≠ c.cid := by
          intro hh
          have hcin : c.cid ∈ t.map Client.cid := List.mem_map_of_mem Client.cid hc
          have hdn : d.cid ∉ t.map Client.cid :=
            hnd'.1
          exact hdn (hh ▸ hcin)
        unfold queueOk
        rw [broadcastStep_getQueue_ne mid msg ex h d c.cid
          (fun hh => hdc hh.symm)]
        exact hok c (List.mem_cons_of_mem d hc) hcex

theorem broadcastStep_roomMembers_subset {x : Client} (mid : String)
    (msg : WSMessage) (ex : Option Client) (h : Hub) (c : Client)
    (hx : x ∈ roomMembers (broadcastStep mid msg ex h c) mid) :
    x ∈ roomMembers h mid := by
  unfold broadcastStep sendStep at hx
  by_cases hex : ex = some c
  · simpa [hex] using hx
  · cases halq : alookup c.cid h.queues with
    | none =>
      simp only [hex, if_false, halq] at hx
      rw [evictClient_roomMembers] at hx
      exact delClient_subset hx
    | some q =>
      simp only [hex, if_false, halq] at hx
      split at hx
      · exact hx
      · rw [evictClient_roomMembers] at hx
        exact delClient_subset hx

theorem foldl_broadcastStep_roomMembers_subset {x : Client} (mid : String)
    (msg : WSMessage) (ex : Option Client) :
    ∀ (l : List Client) (h : Hub),
    x ∈ roomMembers (l.foldl (broadcastStep mid msg ex) h) mid →
    x ∈ roomMembers h mid
  | [], _ => fun hx => hx
  | c :: t, h => fun hx =>
    broadcastStep_roomMembers_subset mid msg ex h c
      (foldl_broadcastStep_roomMembers_subset mid msg ex t _ hx)

/-- Eviction: a non-excluded member of the loop list whose queue cannot
accept the message ends up outside the client registry and outside the
room, with its queue closed. -/
theorem foldl_broadcastStep_evict (mid : String) (msg : WSMessage)
    (ex : Option Client) :
    ∀ (l : List Client) (h : Hub) (c : Client),
    c ∈ l → ex ≠ some c → (l.map Client.cid).Nodup →
    queueOk h c.cid = false →
    c ∉ (l.foldl (broadcastStep mid msg ex) h).clients ∧
    c ∉ roomMembers (l.foldl (broadcastStep mid msg ex) h) mid ∧
    (∀ q, getQueue h c.cid = some q →
      getQueue (l.foldl (broadcastStep mid msg ex) h) c.cid
        = some { q with closed := true })
  | [], _, _ => fun hmem => absurd hmem (List.not_mem_nil _)
  | d :: t, h, c => by
    intro hmem hex hnd hbad
    have hnd' : d.cid ∉ t.map Client.cid ∧ (t.map Client.cid).Nodup := by
      rw [List.map_cons, List.nodup_cons] at hnd
      exact hnd
    rw [List.foldl_cons]
    rcases List.mem_cons.1 hmem with hcd | hct
    · subst hcd
      rw [broadcastStep_evict mid msg ex h c hex hbad]
      have hcidt : ∀ d2 ∈ t, d2.cid ≠ c.cid := by
        intro d2 hd2 hh
        exact hnd'.1
          (hh ▸ List.mem_map_of_mem Client.cid hd2)
      refine ⟨?_, ?_, ?_⟩
      · intro hx
        have := foldl_broadcastStep_clients_subset mid msg ex t _ hx
        rw [evictClient_clients] at this
        exact not_mem_delClient c h.clients this
      · intro hx
        have := foldl_broadcastStep_roomMembers_subset mid msg ex t _ hx
        rw [evictClient_roomMembers] at this
        exact not_mem_delClient c (roomMembers h mid) this
      · intro q hq
        rw [foldl_broadcastStep_getQueue_untouched mid msg ex t _ c.cid
          (fun d2 hd2 hh => absurd hh (hcidt d2 hd2))]
        exact evictClient_getQueue_self h mid c q hq
    · have hdc : d.cid ≠ c.cid := by
        intro hh
        have hcin : c.cid ∈ t.map Client.cid := List.mem_map_of_mem Client.cid hct
        have hdn : d.cid ∉ t.map Client.cid :=
          hnd'.1
        exact hdn (hh ▸ hcin)
      have hq1 : getQueue (broadcastStep mid msg ex h d) c.cid
          = getQueue h c.cid :=
        broadcastStep_getQueue_ne mid msg ex h d c.cid (fun hh => hdc hh.symm)
      have hrec := foldl_broadcastStep_evict mid msg ex t
        (broadcastStep mid msg ex h d) c hct hex
        (hnd'.2)
        (by unfold queueOk; rw [hq1]; exact hbad)
      exact ⟨hrec.1, hrec.2.1, fun q hq => hrec.2.2 q (hq1.symm ▸ hq)⟩

/-- The broadcast function rewritten as the delivery fold over the
member snapshot, for a room that exists. -/
theorem broadcastToMeeting_eq_foldl (h : Hub) (mid : String)
    (msg : WSMessage) (ex : Option Client) (members : List Client)
    (hroom : getRoom h mid = some members) :
    broadcastToMeeting h mid msg ex
      = members.foldl (broadcastStep mid msg ex)
          { h with log := h.log ++ [msg] } := by
  unfold broadcastToMeeting
  unfold getRoom at hroom
  simp only [hroom]

/-- Delivery through a full broadcast: a non-excluded member with a
unique pointer identity and queue capacity receives exactly the
message, appended once to its queue. -/
theorem broadcastToMeeting_deliver (h : Hub) (mid : String)
    (msg : WSMessage) (ex : Option Client) (members : List Client)
    (c : Client) (hroom : getRoom h mid = some members) (hc : c ∈ members)
    (hex : ex ≠ some c) (hnd : (members.map Client.cid).Nodup)
    (hok : queueOk h c.cid = true) :
    sendBuf (broadcastToMeeting h mid msg ex) c.cid
      = sendBuf h c.cid ++ [msg] := by
  have hokB : queueOk { h with log := h.log ++ [msg] } c.cid = true := hok
  have hd := foldl_broadcastStep_deliver mid msg ex members
    { h with log := h.log ++ [msg] } c hc hex hnd hokB
  unfold sendBuf
  rw [broadcastToMeeting_eq_foldl h mid msg ex members hroom, hd]
  have hBq : getQueue { h with log := h.log ++ [msg] } c.cid
      = getQueue h c.cid := rfl
  rw [hBq]
  cases hg : getQueue h c.cid with
  | none =>
    unfold queueOk at hok
    rw [hg] at hok
    exact absurd hok (by simp)
  | some q => rfl

/-- A broadcast does not touch the queue of a pointer identity owned
by no member other than possibly the excluded one. -/
theorem broadcastToMeeting_untouched (h : Hub) (mid : String)
    (msg : WSMessage) (ex : Option Client) (members : List Client)
    (n : Nat) (hroom : getRoom h mid = some members)
    (hl : ∀ c ∈ members, c.cid = n → ex = some c) :
    sendBuf (broadcastToMeeting h mid msg ex) n = sendBuf h n := by
  have hu := foldl_broadcastStep_getQueue_untouched mid msg ex members
    { h with log := h.log ++ [msg] } n hl
  unfold sendBuf
  rw [broadcastToMeeting_eq_foldl h mid msg ex members hroom, hu]
  rfl

/-- A broadcast in which every non-excluded member queue has capacity
changes neither the client registry nor the meetings map. -/
theorem broadcastToMeeting_all_ok (h : Hub) (mid : String)
    (msg : WSMessage) (ex : Option Client) (members : List Client)
    (hroom : getRoom h mid = some members)
    (hnd : (members.map Client.cid).Nodup)
    (hok : ∀ c ∈ members, ex ≠ some c → queueOk h c.cid = true) :
    (broadcastToMeeting h mid msg ex).clients = h.clients ∧
    (broadcastToMeeting h mid msg ex).meetings = h.meetings := by
  have hall := foldl_broadcastStep_all_ok mid msg ex members
    { h with log := h.log ++ [msg] } hnd (fun c hc hcex => hok c hc hcex)
  rw [broadcastToMeeting_eq_foldl h mid msg ex members hroom]
  exact ⟨hall.2, hall.1⟩

/-- Eviction through a full broadcast: a non-excluded member with a
unique pointer identity whose queue is full or closed is removed from
the registry and the room and its queue is closed. -/
theorem broadcastToMeeting_evict_member (h : Hub) (mid : String)
    (msg : WSMessage) (ex : Option Client) (members : List Client)
    (c : Client) (hroom : getRoom h mid = some members) (hc : c ∈ members)
    (hex : ex ≠ some c) (hnd : (members.map Client.cid).Nodup)
    (hbad : queueOk h c.cid = false) :
    c ∉ (broadcastToMeeting h mid msg ex).clients ∧
    c ∉ roomMembers (broadcastToMeeting h mid msg ex) mid ∧
    (∀ q, getQueue h c.cid = some q →
      getQueue (broadcastToMeeting h mid msg ex) c.cid
        = some { q with closed := true }) := by
  have hev := foldl_broadcastStep_evict mid msg ex members
    { h with log := h.log ++ [msg] } c hc hex hnd hbad
  rw [broadcastToMeeting_eq_foldl h mid msg ex members hroom]
  exact ⟨hev.1, hev.2.1, fun q hq => hev.2.2 q hq⟩

/-! ### Claim C6: broadcast excludes exactly the excluded connection -/

/-- Claim C6: a room broadcast with an excluded connection delivers
the message to exactly the members other than the excluded one (every
recipient queue having capacity): each other member queue gains the
message once, the excluded member queue is untouched, queues of
non-members are untouched, and no membership changes. -/
theorem C6_broadcast_delivers_exactly_to_others (h : Hub) (mid : String)
    (msg : WSMessage) (e : Client) (members : List Client)
    (hroom : getRoom h mid = some members)
    (hnd : (members.map Client.cid).Nodup)
    (hecid : ∀ c ∈ members, c.cid = e.cid → c = e)
    (hok : ∀ c ∈ members, c ≠ e → queueOk h c.cid = true) :
    (∀ c ∈ members, c ≠ e →
      sendBuf (broadcastToMeeting h mid msg (some e)) c.cid
        = sendBuf h c.cid ++ [msg]) ∧
    sendBuf (broadcastToMeeting h mid msg (some e)) e.cid = sendBuf h e.cid ∧
    (∀ n, n ∉ members.map Client.cid →
      sendBuf (broadcastToMeeting h mid msg (some e)) n = sendBuf h n) ∧
    (broadcastToMeeting h mid msg (some e)).clients = h.clients ∧
    (broadcastToMeeting h mid msg (some e)).meetings = h.meetings := by
  have hok2 : ∀ c ∈ members, (some e : Option Client) ≠ some c →
      queueOk h c.cid = true :=
    fun c hc hne => hok c hc (fun hce => hne (by rw [hce]))
  have hall := broadcastToMeeting_all_ok h mid msg (some e) members hroom hnd hok2
  refine ⟨?_, ?_, ?_, hall.1, hall.2⟩
  · intro c hc hcne
    exact broadcastToMeeting_deliver h mid msg (some e) members c hroom hc
      (fun hh => hcne (Option.some.inj hh).symm) hnd (hok c hc hcne)
  · exact broadcastToMeeting_untouched h mid msg (some e) members e.cid hroom
      (fun c hc hccid => by rw [hecid c hc hccid])
  · intro n hn
    exact broadcastToMeeting_untouched h mid msg (some e) members n hroom
      (fun c hc hccid =>
        absurd (hccid ▸ List.mem_map_of_mem Client.cid hc) hn)

def w6A : Client :=
  { cid := 20, userID := "uA", meetingID := "w6", peerID := "pA", capacity := 4 }
def w6B : Client :=
  { cid := 21, userID := "uB", meetingID := "w6", peerID := "pB", capacity := 4 }
def w6C : Client :=
  { cid := 22, userID := "uC", meetingID := "w6", peerID := "pC", capacity := 4 }

/-- A hub whose room `w6` holds exactly A, B, C with open queues. -/
def w6Hub : Hub :=
  { clients := [w6A, w6B, w6C]
    meetings := [("w6", [w6A, w6B, w6C])]
    queues := [(20, { capacity := 4, buffered := [], closed := false }),
               (21, { capacity := 4, buffered := [], closed := false }),
               (22, { capacity := 4, buffered := [], closed := false })]
    log := []
    evictions := 0 }

def w6Msg : WSMessage :=
  { type := "chat-message", dataUserId := "uA", dataPeerId := "pA"
    meetingID := "w6", timestamp := 5 }

theorem C6_witness :
    sendBuf (broadcastToMeeting w6Hub "w6" w6Msg (some w6A)) w6B.cid
      = sendBuf w6Hub w6B.cid ++ [w6Msg] ∧
    sendBuf (broadcastToMeeting w6Hub "w6" w6Msg (some w6A)) w6C.cid
      = sendBuf w6Hub w6C.cid ++ [w6Msg] ∧
    sendBuf (broadcastToMeeting w6Hub "w6" w6Msg (some w6A)) w6A.cid
      = sendBuf w6Hub w6A.cid :=
  ⟨(C6_broadcast_delivers_exactly_to_others w6Hub "w6" w6Msg w6A
      [w6A, w6B, w6C] rfl (by decide) (by decide) (by decide)).1 w6B
      (by decide) (by decide),
   (C6_broadcast_delivers_exactly_to_others w6Hub "w6" w6Msg w6A
      [w6A, w6B, w6C] rfl (by decide) (by decide) (by decide)).1 w6C
      (by decide) (by decide),
   (C6_broadcast_delivers_exactly_to_others w6Hub "w6" w6Msg w6A
      [w6A, w6B, w6C] rfl (by decide) (by decide) (by decide)).2.1⟩

/-! ### Claim C7: saturated members are evicted, the rest still served -/

/-- Claim C7: during one room broadcast, every non-excluded member
whose queue is full (or closed or untracked) is removed from both the
room member set and the global registry with its queue closed, and the
message is still delivered to every non-excluded member whose queue
has capacity.  The embedded `broadcastToMeeting` returns only the new
hub state - it has no error result to report the queue-full condition
through, mirroring the `void` Go method. -/
theorem C7_saturated_member_evicted_others_served (h : Hub) (mid : String)
    (msg : WSMessage) (ex : Option Client) (members : List Client)
    (hroom : getRoom h mid = some members)
    (hnd : (members.map Client.cid).Nodup) :
    (∀ c ∈ members, ex ≠ some c → queueOk h c.cid = false →
      c ∉ (broadcastToMeeting h mid msg ex).clients ∧
      c ∉ roomMembers (broadcastToMeeting h mid msg ex) mid ∧
      (∀ q, getQueue h c.cid = some q →
        getQueue (broadcastToMeeting h mid msg ex) c.cid
          = some { q with closed := true })) ∧
    (∀ c ∈ members, ex ≠ some c → queueOk h c.cid = true →
      sendBuf (broadcastToMeeting h mid msg ex) c.cid
        = sendBuf h c.cid ++ [msg]) := by
  constructor
  · intro c hc hex hbad
    exact broadcastToMeeting_evict_member h mid msg ex members c hroom hc
      hex hnd hbad
  · intro c hc hex hok
    exact broadcastToMeeting_deliver h mid msg ex members c hroom hc hex
      hnd hok

def w7A : Client :=
  { cid := 30, userID := "uA", meetingID := "w7", peerID := "pA", capacity := 2 }
def w7B : Client :=
  { cid := 31, userID := "uB", meetingID := "w7", peerID := "pB", capacity := 1 }

def w7Old : WSMessage :=
  { type := "chat-message", dataUserId := "uX", dataPeerId := "pX"
    meetingID := "w7", timestamp := 1 }

/-- A hub whose room `w7` holds A (queue with capacity to spare) and B
(queue saturated: one slot, one undelivered message). -/
def w7Hub : Hub :=
  { clients := [w7A, w7B]
    meetings := [("w7", [w7A, w7B])]
    queues := [(30, { capacity := 2, buffered := [], closed := false }),
               (31, { capacity := 1, buffered := [w7Old], closed := false })]
    log := []
    evictions := 0 }

def w7Msg : WSMessage :=
  { type := "participant-update", dataUserId := "uA", dataPeerId := "pA"
    meetingID := "w7", timestamp := 2 }

theorem C7_witness :
    w7B ∉ (broadcastToMeeting w7Hub "w7" w7Msg none).clients ∧
    w7B ∉ roomMembers (broadcastToMeeting w7Hub "w7" w7Msg none) "w7" ∧
    getQueue (broadcastToMeeting w7Hub "w7" w7Msg none) w7B.cid
      = some { capacity := 1, buffered := [w7Old], closed := true } ∧
    sendBuf (broadcastToMeeting w7Hub "w7" w7Msg none) w7A.cid
      = sendBuf w7Hub w7A.cid ++ [w7Msg] :=
  ⟨((C7_saturated_member_evicted_others_served w7Hub "w7" w7Msg none
      [w7A, w7B] rfl (by decide)).1 w7B (by decide) (by decide) (by decide)).1,
   ((C7_saturated_member_evicted_others_served w7Hub "w7" w7Msg none
      [w7A, w7B] rfl (by decide)).1 w7B (by decide) (by decide) (by decide)).2.1,
   ((C7_saturated_member_evicted_others_served w7Hub "w7" w7Msg none
      [w7A, w7B] rfl (by decide)).1 w7B (by decide) (by decide) (by decide)).2.2
      { capacity := 1, buffered := [w7Old], closed := false } rfl,
   (C7_saturated_member_evicted_others_served w7Hub "w7" w7Msg none
      [w7A, w7B] rfl (by decide)).2 w7A (by decide) (by decide) (by decide)⟩

/-! ### Claim C8: register adds the connection and notifies the room -/

theorem registerCore_getQueue_ne (h : Hub) (c : Client) (n : Nat)
    (hn : n ≠ c.cid) :
    getQueue (registerCore h c) n = getQueue h n := by
  show getQueue (installQueue h c) n = getQueue h n
  unfold installQueue getQueue
  cases halq : alookup c.cid h.queues with
  | none => simp only; exact alookup_aset_ne _ hn _
  | some q => rfl

theorem installQueue_sendBuf (h : Hub) (c : Client) (n : Nat) :
    sendBuf (installQueue h c) n = sendBuf h n := by
  unfold installQueue sendBuf getQueue
  cases halq : alookup c.cid h.queues with
  | none =>
    by_cases hn : n = c.cid
    · subst hn
      simp [alookup_aset_self, halq]
    · simp only
      rw [alookup_aset_ne _ hn _]
  | some q => rfl

/-- Claim C8: registering a fresh connection bound to meeting `m`
leaves it present in the global registry and in room `m` (created if
absent), and the `user-joined` event carrying exactly the new user id
and peer id is delivered to every prior member of the room and not to
the new connection itself.  The embedded `register` is total - there
is no error path, mirroring the register arm of `Hub.run`. -/
theorem C8_register_adds_and_notifies_room (h : Hub) (c : Client)
    (now : Nat)
    (hfresh : c ∉ roomMembers h c.meetingID)
    (hnd : ((roomMembers h c.meetingID).map Client.cid).Nodup)
    (hcid : ∀ d ∈ roomMembers h c.meetingID, d.cid ≠ c.cid)
    (hok : ∀ d ∈ roomMembers h c.meetingID, queueOk h d.cid = true) :
    c ∈ (register h c now).clients ∧
    c ∈ roomMembers (register h c now) c.meetingID ∧
    (∀ d ∈ roomMembers h c.meetingID,
      sendBuf (register h c now) d.cid
        = sendBuf h d.cid ++ [userJoinedMsg c now]) ∧
    sendBuf (register h c now) c.cid = sendBuf h c.cid := by
  have hj : joinRoomList h c = roomMembers h c.meetingID ++ [c] := by
    unfold joinRoomList
    rw [if_neg hfresh]
  have hR_room : getRoom (registerCore h c) c.meetingID
      = some (roomMembers h c.meetingID ++ [c]) := by
    unfold getRoom
    rw [registerCore_meetings, alookup_aset_self, hj]
  have hndL : (((roomMembers h c.meetingID ++ [c]).map Client.cid)).Nodup := by
    rw [List.map_append, List.nodup_append]
    refine ⟨hnd, List.nodup_singleton _, ?_⟩
    intro a ha hb
    simp only [List.map_cons, List.map_nil, List.mem_singleton] at hb
    rcases List.mem_map.1 ha with ⟨d, hd, hdc⟩
    exact hcid d hd (hb ▸ hdc)
  have hokR : ∀ d ∈ roomMembers h c.meetingID,
      queueOk (registerCore h c) d.cid = true := by
    intro d hd
    unfold queueOk
    rw [registerCore_getQueue_ne h c d.cid (hcid d hd)]
    exact hok d hd
  have hexcl : ∀ d ∈ roomMembers h c.meetingID ++ [c],
      (some c : Option Client) ≠ some d →
      queueOk (registerCore h c) d.cid = true := by
    intro d hd hne
    rcases List.mem_append.1 hd with hdr | hdc
    · exact hokR d hdr
    · exact absurd (by rw [List.mem_singleton.1 hdc]) hne
  have hall := broadcastToMeeting_all_ok (registerCore h c) c.meetingID
    (userJoinedMsg c now) (some c) (roomMembers h c.meetingID ++ [c])
    hR_room hndL hexcl
  refine ⟨?_, ?_, ?_, ?_⟩
  · show c ∈ (broadcastToMeeting (registerCore h c) c.meetingID
      (userJoinedMsg c now) (some c)).clients
    rw [hall.1, registerCore_clients]
    split
    · rename_i hin
      exact hin
    · exact List.mem_append_right _ (List.mem_singleton.2 rfl)
  · show c ∈ roomMembers (broadcastToMeeting (registerCore h c) c.meetingID
      (userJoinedMsg c now) (some c)) c.meetingID
    unfold roomMembers getRoom
    rw [hall.2]
    have : alookup c.meetingID (registerCore h c).meetings
        = some (roomMembers h c.meetingID ++ [c]) := hR_room
    rw [this]
    exact List.mem_append_right _ (List.mem_singleton.2 rfl)
  · intro d hd
    have hdne : (some c : Option Client) ≠ some d := by
      intro hh
      exact hcid d hd ((Option.some.inj hh) ▸ rfl)
    have hdel := broadcastToMeeting_deliver (registerCore h c) c.meetingID
      (userJoinedMsg c now) (some c) (roomMembers h c.meetingID ++ [c]) d
      hR_room (List.mem_append_left _ hd) hdne hndL (hokR d hd)
    show sendBuf (broadcastToMeeting (registerCore h c) c.meetingID
      (userJoinedMsg c now) (some c)) d.cid = _
    rw [hdel]
    have hsb : sendBuf (registerCore h c) d.cid = sendBuf h d.cid := by
      show sendBuf (installQueue h c) d.cid = sendBuf h d.cid
      exact installQueue_sendBuf h c d.cid
    rw [hsb]
  · have hu := broadcastToMeeting_untouched (registerCore h c) c.meetingID
      (userJoinedMsg c now) (some c) (roomMembers h c.meetingID ++ [c])
      c.cid hR_room ?_
    · show sendBuf (broadcastToMeeting (registerCore h c) c.meetingID
        (userJoinedMsg c now) (some c)) c.cid = _
      rw [hu]
      show sendBuf (installQueue h c) c.cid = sendBuf h c.cid
      exact installQueue_sendBuf h c c.cid
    · intro d hd hdc
      rcases List.mem_append.1 hd with hdr | hdc2
      · exact absurd hdc (hcid d hdr)
      · rw [List.mem_singleton.1 hdc2]

def w8D : Client :=
  { cid := 40, userID := "uD", meetingID := "w8", peerID := "pD", capacity := 3 }
def w8E : Client :=
  { cid := 41, userID := "uE", meetingID := "w8", peerID := "pE", capacity := 3 }

/-- A hub whose room `w8` holds only D, before E registers. -/
def w8Hub : Hub :=
  { clients := [w8D]
    meetings := [("w8", [w8D])]
    queues := [(40, { capacity := 3, buffered := [], closed := false })]
    log := []
    evictions := 0 }

theorem C8_witness :
    w8E ∈ (register w8Hub w8E 7).clients ∧
    w8E ∈ roomMembers (register w8Hub w8E 7) "w8" ∧
    sendBuf (register w8Hub w8E 7) w8D.cid
      = sendBuf w8Hub w8D.cid ++ [userJoinedMsg w8E 7] ∧
    sendBuf (register w8Hub w8E 7) w8E.cid = sendBuf w8Hub w8E.cid :=
  ⟨(C8_register_adds_and_notifies_room w8Hub w8E 7 (by decide) (by decide)
      (by decide) (by decide)).1,
   (C8_register_adds_and_notifies_room w8Hub w8E 7 (by decide) (by decide)
      (by decide) (by decide)).2.1,
   (C8_register_adds_and_notifies_room w8Hub w8E 7 (by decide) (by decide)
      (by decide) (by decide)).2.2.1 w8D (by decide),
   (C8_register_adds_and_notifies_room w8Hub w8E 7 (by decide) (by decide)
      (by decide) (by decide)).2.2.2⟩

/-! ### Claims C1, C3, C4: evaluation of the code at the inputs the
specified behaviour would have to handle -/

/-- The raw bytes of an offer frame addressed to the peer id `pX`, as a
client following the specified envelope would send it. -/
def offerFrameToPX : String :=
  "\x7b\"type\":\"offer\",\"fromPeerId\":\"pY\",\"toPeerId\":\"pX\",\"offer\":\x7b\"type\":\"offer\",\"sdp\":\"v=0\"\x7d\x7d"

/-- Claim C1: an offer carrying a target peer identifier is relayed
verbatim to exactly the connection owning that peer id.  What the code
does instead: `websocketHandler` (server/main.go lines 701-720) is the
self-described example echo loop, so a frame received on connection 1
(peer `pY`) is delivered back to connection 1 itself, and the
connection 2 owning the target peer id `pX` receives nothing.  This
theorem evaluates the handler at that failing input. -/
theorem C1_offer_echoed_to_sender_not_target :
    websocketHandlerFrame 1 offerFrameToPX = [(1, offerFrameToPX)] ∧
    (2, offerFrameToPX) ∉ websocketHandlerFrame 1 offerFrameToPX := by
  refine ⟨rfl, ?_⟩
  simp [websocketHandlerFrame]

/-- The private meeting of the C3 scenario: created by `U1` with the
privacy flag set. -/
def c3Meeting : Meeting :=
  { id := "m2", title := "Private standup", description := ""
    createdBy := "U1", scheduledFor := "", createdAt := 0, updatedAt := 0
    isPrivate := true, isActive := true, maxParticipants := 50 }

/-- The participant record `notifyJoinHandler` builds for the C3
scenario join of user `U2`. -/
def c3Joined : Participant :=
  { id := "pid-1", meetingId := "m2", userId := "U2", userName := "Mallory"
    peerId := "peer2", isHost := false, isAudioEnabled := false
    isVideoEnabled := false, isScreenSharing := false
    joinedAt := 10, lastActive := 10 }

/-- Claim C3: a join of a private meeting by a non-creator is rejected
with an access-denied outcome before any participant record is
created.  What the code does instead: `notifyJoinHandler`
(server/main.go lines 754-791) never looks the meeting up, so the join
by `U2` of the private meeting created by `U1` succeeds and the
participant record is inserted.  This theorem evaluates the handler at
that failing input. -/
theorem C3_private_join_creates_record :
    c3Meeting.isPrivate = true ∧ c3Meeting.createdBy ≠ "U2" ∧
    notifyJoinHandler c3Meeting.id "U2"
        { userName := "Mallory", peerId := "peer2" } [] "pid-1" 10
      = some (c3Joined, [c3Joined]) := by
  refine ⟨rfl, by decide, rfl⟩

/-- The two participants already present in the C4 scenario meeting of
capacity 2. -/
def c4Store : List Participant :=
  [ { id := "pid-x", meetingId := "m1", userId := "X", userName := "Xavier"
      peerId := "peerX", isHost := false, isAudioEnabled := false
      isVideoEnabled := false, isScreenSharing := false
      joinedAt := 1, lastActive := 1 }
  , { id := "pid-y", meetingId := "m1", userId := "Y", userName := "Yara"
      peerId := "peerY", isHost := false, isAudioEnabled := false
      isVideoEnabled := false, isScreenSharing := false
      joinedAt := 2, lastActive := 2 } ]

/-- The full meeting of the C4 scenario: capacity 2, already holding
the two participants of `c4Store`. -/
def c4Meeting : Meeting :=
  { id := "m1", title := "Pair call", description := ""
    createdBy := "X", scheduledFor := "", createdAt := 0, updatedAt := 0
    isPrivate := false, isActive := true, maxParticipants := 2 }

/-- The participant record `notifyJoinHandler` builds for the C4
scenario join of client `Z`. -/
def c4Joined : Participant :=
  { id := "pid-z", meetingId := "m1", userId := "Z", userName := "Zoe"
    peerId := "peerZ", isHost := false, isAudioEnabled := false
    isVideoEnabled := false, isScreenSharing := false
    joinedAt := 3, lastActive := 3 }

/-- Claim C4: a join of a meeting already at its `MaxParticipants`
capacity is rejected with a meeting-full outcome and the client never
appears in the stored participant list.  What the code does instead:
`notifyJoinHandler` (server/main.go lines 754-791) never reads the
meeting document or counts the stored participants, so the join of
client `Z` into the capacity-2 meeting that already holds 2
participants succeeds and the store grows to 3 records.  This theorem
evaluates the handler at that failing input. -/
theorem C4_full_meeting_join_creates_record :
    c4Meeting.maxParticipants = 2 ∧
    (c4Store.filter (fun p => p.meetingId == c4Meeting.id)).length = 2 ∧
    notifyJoinHandler c4Meeting.id "Z"
        { userName := "Zoe", peerId := "peerZ" } c4Store "pid-z" 3
      = some (c4Joined, c4Store ++ [c4Joined]) := by
  refine ⟨rfl, ?_, rfl⟩
  decide

/-! ### Claim C9: the participant PATCH overwrites exactly the three
media flags and the last-active timestamp -/

/-- Claim C9: for an update-participant request on an existing record,
exactly `isAudioEnabled`, `isVideoEnabled`, `isScreenSharing` and
`lastActive` are overwritten (the last with the current time) and
every other field is unchanged.  `store = pre ++ p :: post` with no
match in `pre` pins down the record `UpdateOne` rewrites. -/
theorem C9_update_overwrites_exactly_flags_and_lastActive
    (mid uid : String) (pre post : List Participant) (p : Participant)
    (r : ParticipantUpdateRequest) (now : Nat)
    (hp : participantMatches mid uid p = true)
    (hpre : ∀ q ∈ pre, participantMatches mid uid q = false) :
    updateParticipantStore (pre ++ p :: post) mid uid r now
      = pre ++ applyParticipantUpdate p r now :: post ∧
    (applyParticipantUpdate p r now).isAudioEnabled = r.isAudioEnabled ∧
    (applyParticipantUpdate p r now).isVideoEnabled = r.isVideoEnabled ∧
    (applyParticipantUpdate p r now).isScreenSharing = r.isScreenSharing ∧
    (applyParticipantUpdate p r now).lastActive = now ∧
    (applyParticipantUpdate p r now).id = p.id ∧
    (applyParticipantUpdate p r now).meetingId = p.meetingId ∧
    (applyParticipantUpdate p r now).userId = p.userId ∧
    (applyParticipantUpdate p r now).userName = p.userName ∧
    (applyParticipantUpdate p r now).peerId = p.peerId ∧
    (applyParticipantUpdate p r now).isHost = p.isHost ∧
    (applyParticipantUpdate p r now).joinedAt = p.joinedAt := by
  refine ⟨?_, rfl, rfl, rfl, rfl, rfl, rfl, rfl, rfl, rfl, rfl, rfl⟩
  induction pre with
  | nil => simp [updateParticipantStore, hp]
  | cons q t ih =>
    have hq := hpre q (by simp)
    simp only [List.cons_append, updateParticipantStore, hq,
      Bool.false_eq_true, if_false]
    exact congrArg (q :: ·) (ih fun x hx => hpre x (by simp [hx]))

/-- Witness for C9 at a concrete store and request. -/
def c9P : Participant :=
  { id := "pid-9", meetingId := "m9", userId := "U9", userName := "Nia"
    peerId := "peer9", isHost := true, isAudioEnabled := true
    isVideoEnabled := true, isScreenSharing := false
    joinedAt := 4, lastActive := 4 }

theorem C9_witness :
    participantMatches "m9" "U9" c9P = true ∧
    updateParticipantStore [c9P] "m9" "U9"
        { isAudioEnabled := false, isVideoEnabled := true, isScreenSharing := true } 7
      = [applyParticipantUpdate c9P
          { isAudioEnabled := false, isVideoEnabled := true, isScreenSharing := true } 7] ∧
    (applyParticipantUpdate c9P
        { isAudioEnabled := false, isVideoEnabled := true, isScreenSharing := true } 7).isHost
      = c9P.isHost :=
  ⟨by decide,
    (C9_update_overwrites_exactly_flags_and_lastActive "m9" "U9" [] [] c9P
      { isAudioEnabled := false, isVideoEnabled := true, isScreenSharing := true } 7
      (by decide) (by simp)).1,
    (C9_update_overwrites_exactly_flags_and_lastActive "m9" "U9" [] [] c9P
      { isAudioEnabled := false, isVideoEnabled := true, isScreenSharing := true } 7
      (by decide) (by simp)).2.2.2.2.2.2.2.2.2.2.1⟩

/-! ### Claim C10: the participant limit of a created meeting is
clamped into 1..100 -/

/-- Claim C10: the stored meeting of every create-meeting request has
its `MaxParticipants` clamped - 50 for a requested value of zero or
below (the omitted-field case included), 100 for a requested value
above 100, the requested value otherwise - so the stored limit always
lies in 1..100. -/
theorem C10_maxParticipants_clamped
    (title description scheduledFor : String) (isPrivate : Bool)
    (reqMax : Int) (creator meetingID : String) (now : Nat) (m : Meeting)
    (hm : createMeetingStored title description scheduledFor isPrivate
        reqMax creator meetingID now = some m) :
    (reqMax ≤ 0 → m.maxParticipants = 50) ∧
    (reqMax > 100 → m.maxParticipants = 100) ∧
    (0 < reqMax → reqMax ≤ 100 → m.maxParticipants = reqMax) ∧
    1 ≤ m.maxParticipants ∧ m.maxParticipants ≤ 100 := by
  have hmp : m.maxParticipants = clampMaxParticipants reqMax := by
    unfold createMeetingStored at hm
    by_cases ht : trimString title = ""
    · rw [if_pos ht] at hm
      exact absurd hm (by simp)
    · rw [if_neg ht] at hm
      simp only [Option.some.injEq] at hm
      rw [← hm]
  rw [hmp]
  unfold clampMaxParticipants
  refine ⟨fun h => by simp [h], fun h => ?_, fun h1 h2 => ?_, ?_, ?_⟩
  · rw [if_neg (by omega), if_pos h]
  · rw [if_neg (by omega), if_neg (by omega)]
  · split
    · omega
    · split <;> omega
  · split
    · omega
    · split <;> omega

/-- Witness for C10 at a request asking for 150 participants. -/
theorem C10_witness :
    createMeetingStored "Standup" "" "" false 150 "U1" "m10" 0
      = some
        { id := "m10", title := "Standup", description := ""
          createdBy := "U1", scheduledFor := "", createdAt := 0
          updatedAt := 0, isPrivate := false, isActive := true
          maxParticipants := 100 } ∧
    (150 : Int) > 100 ∧
    ({ id := "m10", title := "Standup", description := ""
       createdBy := "U1", scheduledFor := "", createdAt := 0
       updatedAt := 0, isPrivate := false, isActive := true
       maxParticipants := 100 } : Meeting).maxParticipants = 100 :=
  ⟨by decide, by decide,
    (C10_maxParticipants_clamped "Standup" "" "" false 150 "U1" "m10" 0 _
      (by decide)).2.1 (by decide)⟩

end VideoMeet
